import Mathlib

/-!
Verification of the K-means / pairwise-distance core of the notebook
`NetworkExamples_3.ipynb`.  Float tensors are modelled by lists of real
numbers; a rectangular `N x M` tensor is a list of `N` rows, each a list of
`M` reals (rectangularity is carried as a hypothesis where it matters).
`torch` error conditions are modelled by `Option`: `none` is a raised error.
-/

namespace KM

/-- A point is a list of real coordinates; a point set is a list of points. -/
abbrev Pt := List ℝ

/-- One entry of `((A-B)**2).sum(dim=-1)` from `pairwise_distance`: the sum of
squared coordinate differences of two rows. -/
def sqSum (a b : Pt) : ℝ := ((a.zip b).map (fun p => (p.1 - p.2) ^ 2)).sum

/-- Broadcasting of the last dimension in the subtraction `A - B` of
`pairwise_distance`: a length-1 row is stretched to length `m` by repeating its
single entry; a row already of length `m` is unchanged. -/
def stretchRow (m : ℕ) (r : Pt) : Pt :=
  if r.length = m then r else List.replicate m (r.headD 0)

/-- One entry of the `pairwise_distance` result: `sqrt` of the broadcast sum of
squared differences.  In the source `torch.sqrt` is applied elementwise after
`squeeze`, which is the same value per entry. -/
noncomputable def entryDist (m : ℕ) (a b : Pt) : ℝ :=
  Real.sqrt (sqSum (stretchRow m a) (stretchRow m b))

/-- The full `N1 x N2` distance matrix computed by `pairwise_distance` before
the `squeeze` step: entry `(i, j)` is the distance between row `i` of `A`
(shape `N1 x 1 x M1` after `unsqueeze(dim=1)`) and row `j` of `B`
(shape `1 x N2 x M2` after `unsqueeze(dim=0)`), with the last dimension
broadcast to `max M1 M2`. -/
noncomputable def rawDistMat (A B : List Pt) : List (List ℝ) :=
  A.map (fun a => B.map (fun b => entryDist (max (A.headD []).length (B.headD []).length) a b))

/-- The broadcast compatibility check torch performs at `A - B`: the last
dimensions must be equal or one of them must be 1 (the `N` dimensions are
always compatible with the inserted size-1 dimensions).  Computed from the
first rows, which is faithful for rectangular inputs. -/
def broadcastOk (A B : List Pt) : Bool :=
  ((A.headD []).length == (B.headD []).length) ||
    ((A.headD []).length == 1) || ((B.headD []).length == 1)

/-- Result of `tensor.squeeze()` applied to a 2-dimensional tensor: a scalar
(0-dim), a vector (1-dim) or a matrix (2-dim), depending on which dimensions
have size 1. -/
inductive Squeezed where
  | scalar : ℝ → Squeezed
  | vec : List ℝ → Squeezed
  | mat : List (List ℝ) → Squeezed

/-- The `squeeze()` in `pairwise_distance` applied to the `N1 x N2` matrix:
`1 x 1` collapses to a scalar, `1 x N2` and `N1 x 1` collapse to vectors, and
anything else is left a matrix. -/
def squeezeMat (D : List (List ℝ)) : Squeezed :=
  match D with
  | [[x]] => Squeezed.scalar x
  | [row] => Squeezed.vec row
  | _ =>
    if D.all (fun r => r.length == 1) then Squeezed.vec (D.map (fun r => r.headD 0))
    else Squeezed.mat D

/-- The source function `pairwise_distance(tensor1, tensor2=None)`:
`tensor2` defaults to `tensor1` (self-distance); the broadcast subtraction
raises an error (`none`) on incompatible last dimensions; otherwise the
squared differences are summed over the last dimension, the result is
squeezed, and `sqrt` is taken elementwise. -/
noncomputable def pairwise_distance (tensor1 : List Pt) (t2opt : Option (List Pt)) :
    Option Squeezed :=
  let tensor2 := t2opt.getD tensor1
  if broadcastOk tensor1 tensor2 then some (squeezeMat (rawDistMat tensor1 tensor2))
  else none

/-- Helper for `argminIdx`: scans the remaining entries, keeping the index and
value of the best (strictly smallest) entry seen so far; `i` is the index of
the next entry. -/
noncomputable def argminAux : ℕ → ℕ → ℝ → List ℝ → ℕ
  | _, bi, _, [] => bi
  | i, bi, bv, x :: xs => if x < bv then argminAux (i + 1) i x xs else argminAux (i + 1) bi bv xs

/-- The `torch.argmin` of one row: index of the first minimal entry (ties are
broken towards the lowest index). -/
noncomputable def argminIdx : List ℝ → ℕ
  | [] => 0
  | x :: xs => argminAux 1 0 x xs

/-- The Assign step of `kmeans`: `distances = pairwise_distance(X, centroids)`
followed by `clusters = torch.argmin(distances, dim=1)`.  `argmin` with
`dim=1` raises (`none`) unless the squeezed distances are still 2-dimensional
with nonempty rows. -/
noncomputable def assignStep (X cents : List Pt) : Option (List ℕ) :=
  match pairwise_distance X (some cents) with
  | some (Squeezed.mat D) =>
    if D.all (fun r => !r.isEmpty) then some (D.map argminIdx) else none
  | _ => none

/-- The rows of `X` currently assigned to centroid `k`:
`torch.index_select(X, 0, torch.nonzero(clusters==ndx).squeeze())`. -/
def selectCluster (X : List Pt) (cl : List ℕ) (k : ℕ) : List Pt :=
  ((X.zip cl).filter (fun p => p.2 == k)).map Prod.fst

/-- Coordinatewise mean `selected.mean(dim=0)` of a nonempty group of
`M`-dimensional points. -/
noncomputable def centroidOf (g : List Pt) (M : ℕ) : Pt :=
  (List.range M).map (fun d => (g.map (fun p => p.getD d 0)).sum / (g.length : ℝ))

/-- The Update step of `kmeans`: each centroid `k in range(n_clusters)` is
replaced by the mean of its assigned points.  A cluster with no assigned
points makes the real-valued model meaningless (the code produces NaN there,
see the `NR` model below), so this step reports `none` in that case; every
theorem about completed runs therefore only covers runs in which every
iteration kept all clusters nonempty. -/
noncomputable def updateStep (X : List Pt) (cl : List ℕ) (K : ℕ) : Option (List Pt) :=
  let M := (X.headD []).length
  let groups := (List.range K).map (fun k => selectCluster X cl k)
  if groups.any (fun g => g.isEmpty) then none
  else some (groups.map (fun g => centroidOf g M))

/-- The convergence measure of `kmeans`:
`torch.sum(torch.sqrt(torch.sum((centroids-centroids_pre)**2, dim=1)))`, the
sum over centroids of the Euclidean norm of each centroid's movement. -/
noncomputable def shiftVal (pre post : List Pt) : ℝ :=
  ((post.zip pre).map (fun p => Real.sqrt (sqSum p.1 p.2))).sum

/-- One pass of the `while True` body of `kmeans`: Assign then Update. -/
noncomputable def kmeansIter (X : List Pt) (K : ℕ) (cents : List Pt) :
    Option (List ℕ × List Pt) :=
  match assignStep X cents with
  | none => none
  | some cl =>
    match updateStep X cl K with
    | none => none
    | some c2 => some (cl, c2)

/-- The `while True` loop of `kmeans`, with explicit fuel (the source loop has
no iteration cap; `none` covers both a raised error and fuel exhaustion).
After each iteration the loop breaks exactly when `shift < sqrt_tol`. -/
noncomputable def kmeansLoop : ℕ → List Pt → ℕ → ℝ → List Pt → Option (List ℕ × List Pt)
  | 0, _, _, _, _ => none
  | fuel + 1, X, K, sqrtTol, cents =>
    match kmeansIter X K cents with
    | none => none
    | some (cl, c2) =>
      if shiftVal cents c2 < sqrtTol then some (cl, c2)
      else kmeansLoop fuel X K sqrtTol c2

/-- The error condition of `np.random.choice(N, n)` (sampling with
replacement): it raises iff the population is empty or the requested sample
size is negative; `n > N` and `n = 0` are accepted. -/
def npChoiceFails (N : ℕ) (n : ℤ) : Bool := (N == 0) || (n < 0)

/-- The source function `initial_points(X, n)` (Forgy initialization):
`X[np.random.choice(len(X), n)]`.  The random draw is passed explicitly as
the list of sampled indices; an actual draw has length `n` with entries
below `len(X)`, which theorems carry as hypotheses. -/
def initial_points (X : List Pt) (n : ℤ) (draw : List ℕ) : Option (List Pt) :=
  if npChoiceFails X.length n then none else some (draw.map (fun i => X.getD i []))

/-- The source function `kmeans(X, n_clusters, tol=1e-5)`: Forgy
initialization, then the Assign/Update loop with threshold
`sqrt_tol = math.sqrt(tol)`. -/
noncomputable def kmeans (X : List Pt) (nClusters : ℤ) (draw : List ℕ) (tol : ℝ)
    (fuel : ℕ) : Option (List ℕ × List Pt) :=
  match initial_points X nClusters draw with
  | none => none
  | some cents => kmeansLoop fuel X nClusters.toNat (Real.sqrt tol) cents

/-- `kmeans` with its default tolerance `tol=1e-5`. -/
noncomputable def kmeansD (X : List Pt) (nClusters : ℤ) (draw : List ℕ) (fuel : ℕ) :
    Option (List ℕ × List Pt) :=
  kmeans X nClusters draw (1 / 100000) fuel

/-- The centroid sequence of the loop: `centroidIter X K n c` is the centroid
list after `n` iterations starting from `c` (and `none` if an iteration
raised). -/
noncomputable def centroidIter (X : List Pt) (K : ℕ) : ℕ → List Pt → Option (List Pt)
  | 0, c => some c
  | n + 1, c =>
    match kmeansIter X K c with
    | none => none
    | some (_, c2) => centroidIter X K n c2

/-- A float that may be NaN: `none` models NaN, `some x` a finite real.
Used to model the NaN produced by `mean` over an empty selection. -/
abbrev NR := Option ℝ

/-- NaN-propagating addition. -/
def nAdd : NR → NR → NR
  | some a, some b => some (a + b)
  | _, _ => none

/-- NaN-propagating subtraction. -/
def nSub : NR → NR → NR
  | some a, some b => some (a - b)
  | _, _ => none

/-- NaN-propagating squaring. -/
def nSq : NR → NR
  | some a => some (a ^ 2)
  | none => none

/-- NaN-propagating square root (arguments here are sums of squares, so the
finite case never goes negative). -/
noncomputable def nSqrt : NR → NR
  | some a => some (Real.sqrt a)
  | none => none

/-- NaN-propagating sum of a list. -/
def nSum (l : List NR) : NR := l.foldr nAdd (some 0)

/-- The Update step with torch's actual empty-cluster behaviour: the mean over
an empty selection is a vector of NaNs (`none` entries), written into the
centroid without any error being raised. -/
noncomputable def updateStepN (X : List Pt) (cl : List ℕ) (K : ℕ) : List (List NR) :=
  let M := (X.headD []).length
  (List.range K).map (fun k =>
    if (selectCluster X cl k).isEmpty then List.replicate M (none : NR)
    else (centroidOf (selectCluster X cl k) M).map some)

/-- The convergence measure over NaN-aware floats. -/
noncomputable def shiftN (pre post : List (List NR)) : NR :=
  nSum ((post.zip pre).map (fun p =>
    nSqrt (nSum ((p.1.zip p.2).map (fun q => nSq (nSub q.1 q.2))))))

/-- The loop's break test `shift < sqrt_tol` on a NaN-aware float: a NaN
compares false against everything, so a NaN shift never breaks the loop. -/
def breaksLoop (s : NR) (t : ℝ) : Prop := ∃ v, s = some v ∧ v < t

/-- Modelled from the spec: `D[i][j] = sqrt(sum over d of (A[i][d]-B[j][d])^2)`,
the Euclidean distance between two `M`-dimensional points, written directly
from the spec's indexed formula (used to compare against the source
pipeline). -/
noncomputable def specDistEntry (a b : Pt) (M : ℕ) : ℝ :=
  Real.sqrt (∑ d ∈ Finset.range M, (a.getD d 0 - b.getD d 0) ^ 2)

/-- Modelled from the spec: `shift = sum over k of the Euclidean norm of
(centroid_k(new) - centroid_k(old))`, written directly from the spec's
formula (used to compare against the source's `shiftVal`). -/
noncomputable def specShift (oldC newC : List Pt) (K M : ℕ) : ℝ :=
  ∑ k ∈ Finset.range K,
    Real.sqrt (∑ d ∈ Finset.range M, ((newC.getD k []).getD d 0 - (oldC.getD k []).getD d 0) ^ 2)

/-- The first point set of the spec's concrete `pairwise_distance` scenario. -/
noncomputable def Aex : List Pt := [[1, 2, 3], [4, 5, 6]]

/-- The second point set of the spec's concrete `pairwise_distance` scenario. -/
noncomputable def Bex : List Pt := [[11, 12, 13], [14, 15, 16]]

/-- A 2-point 1-dimensional data set used as a concrete converging run. -/
noncomputable def X2 : List Pt := [[0], [2]]

/-- A 4-point 1-dimensional data set on which `kmeans` converges (shift 3/1000,
strictly below `sqrt(1e-5)`) while the final Update still moves a centroid past
the point `1001/1000`, so re-running Assign on the returned centroids flips
that point's cluster. -/
noncomputable def X4 : List Pt := [[0], [1001 / 1000], [2], [376 / 125]]

lemma squeezeMat_single (x : ℝ) : squeezeMat [[x]] = Squeezed.scalar x := rfl

lemma squeezeMat_cc (r1 r2 : List ℝ) (rs : List (List ℝ)) :
    squeezeMat (r1 :: r2 :: rs) =
      if (r1 :: r2 :: rs).all (fun r => r.length == 1) then
        Squeezed.vec ((r1 :: r2 :: rs).map (fun r => r.headD 0))
      else Squeezed.mat (r1 :: r2 :: rs) := by
  cases r1 with
  | nil => rfl
  | cons x xs =>
    cases xs with
    | nil => rfl
    | cons y ys => rfl

lemma sqSum_nil_left (b : Pt) : sqSum [] b = 0 := by
  simp [sqSum]

lemma sqSum_nil_right (a : Pt) : sqSum a [] = 0 := by
  simp [sqSum]

lemma sqSum_cons (x y : ℝ) (xs ys : Pt) :
    sqSum (x :: xs) (y :: ys) = (x - y) ^ 2 + sqSum xs ys := by
  simp [sqSum]

lemma sqSum_comm (a : Pt) : ∀ b : Pt, sqSum a b = sqSum b a := by
  induction a with
  | nil => intro b; rw [sqSum_nil_left, sqSum_nil_right]
  | cons x xs ih =>
    intro b
    cases b with
    | nil => rw [sqSum_nil_left, sqSum_nil_right]
    | cons y ys => rw [sqSum_cons, sqSum_cons, ih]; ring

lemma sqSum_self (a : Pt) : sqSum a a = 0 := by
  induction a with
  | nil => exact sqSum_nil_left []
  | cons x xs ih => rw [sqSum_cons, ih]; ring

lemma sqSum_eq_finset (a : Pt) : ∀ (b : Pt) (M : ℕ), a.length = M → b.length = M →
    sqSum a b = ∑ d ∈ Finset.range M, (a.getD d 0 - b.getD d 0) ^ 2 := by
  induction a with
  | nil =>
    intro b M ha _
    rw [sqSum_nil_left, ← ha]
    simp
  | cons x xs ih =>
    intro b M ha hb
    cases b with
    | nil => rw [← hb] at ha; simp at ha
    | cons y ys =>
      cases M with
      | zero => simp at ha
      | succ n =>
        have hx : xs.length = n := by simpa using ha
        have hy : ys.length = n := by simpa using hb
        rw [sqSum_cons, Finset.sum_range_succ']
        simp only [List.getD_cons_succ, List.getD_cons_zero]
        rw [← ih ys n hx hy]
        ring

lemma rawDistMat_length (A B : List Pt) : (rawDistMat A B).length = A.length := by
  simp [rawDistMat]

lemma rawDistMat_rows_len (A B : List Pt) : ∀ r ∈ rawDistMat A B, r.length = B.length := by
  intro r hr
  rcases List.mem_map.mp hr with ⟨a, _, rfl⟩
  simp

lemma rawDistMat_getD_in (A B : List Pt) (i j : ℕ) (hi : i < A.length) (hj : j < B.length) :
    ((rawDistMat A B).getD i []).getD j 0 =
      entryDist (max (A.headD []).length (B.headD []).length) (A.getD i []) (B.getD j []) := by
  have h1 : (rawDistMat A B).getD i [] =
      B.map (fun b =>
        entryDist (max (A.headD []).length (B.headD []).length) (A.getD i []) b) := by
    unfold rawDistMat
    rw [List.getD_eq_getElem _ _ (by simpa using hi), List.getElem_map,
      List.getD_eq_getElem A [] hi]
  rw [h1, List.getD_eq_getElem _ _ (by simpa using hj), List.getElem_map,
    List.getD_eq_getElem B [] hj]

lemma rawDistMat_getD_row_out (A B : List Pt) (i : ℕ) (hi : A.length ≤ i) :
    (rawDistMat A B).getD i [] = [] := by
  rw [List.getD_eq_getElem?_getD, List.getElem?_eq_none (by simpa [rawDistMat] using hi)]
  rfl

lemma rawDistMat_getD_col_out (A B : List Pt) (i j : ℕ) (hj : B.length ≤ j) :
    ((rawDistMat A B).getD i []).getD j 0 = 0 := by
  rcases lt_or_le i A.length with hi | hi
  · have h1 : (rawDistMat A B).getD i [] =
        B.map (fun b =>
          entryDist (max (A.headD []).length (B.headD []).length) (A.getD i []) b) := by
      unfold rawDistMat
      rw [List.getD_eq_getElem _ _ (by simpa using hi), List.getElem_map,
        List.getD_eq_getElem A [] hi]
    rw [h1, List.getD_eq_getElem?_getD, List.getElem?_eq_none (by simpa using hj)]
    rfl
  · rw [rawDistMat_getD_row_out A B i hi]
    simp

lemma squeezeMat_mat_of (D : List (List ℝ)) (hD : 2 ≤ D.length) (r : List ℝ)
    (hr : r ∈ D) (hlen : r.length ≠ 1) : squeezeMat D = Squeezed.mat D := by
  rcases D with _ | ⟨r1, _ | ⟨r2, rs⟩⟩
  · simp at hD
  · simp at hD
  · rw [squeezeMat_cc, if_neg]
    simp only [List.all_eq_true, not_forall]
    refine ⟨r, hr, ?_⟩
    simp only [beq_iff_eq]
    exact hlen

lemma entryDist_eq_spec (a b : Pt) (M : ℕ) (ha : a.length = M) (hb : b.length = M) :
    entryDist M a b = specDistEntry a b M := by
  unfold entryDist specDistEntry stretchRow
  rw [if_pos ha, if_pos hb, sqSum_eq_finset a b M ha hb]

lemma headD_len_of_rect (A : List Pt) (M : ℕ) (hA : ∀ r ∈ A, r.length = M)
    (hne : A ≠ []) : (A.headD []).length = M := by
  rcases A with _ | ⟨a, rest⟩
  · exact absurd rfl hne
  · exact hA a (List.mem_cons_self a rest)

/-- C5 counterexample: with N = 2 input points and K = 3 > N, initialization
does not raise any invalid-parameter error: `np.random.choice(2, 3)` samples
with replacement and `initial_points` returns three centroids. -/
theorem C5_counterexample :
    initial_points [[(0 : ℝ)], [1]] 3 [0, 1, 1] = some [[(0 : ℝ)], [1], [1]] ∧
    initial_points [[(0 : ℝ)], [1]] 3 [0, 1, 1] ≠ none := by
  have h : initial_points [[(0 : ℝ)], [1]] 3 [0, 1, 1] = some [[(0 : ℝ)], [1], [1]] := by
    simp [initial_points, npChoiceFails]
  exact ⟨h, by rw [h]; exact Option.some_ne_none _⟩

/-- C5 amended: initialization fails with an error iff the input point set is
empty or the requested cluster count is negative; `K = 0` and `K > N` are
accepted, because `np.random.choice` samples with replacement. -/
theorem C5_amended (X : List Pt) (n : ℤ) (draw : List ℕ) :
    initial_points X n draw = none ↔ (X.length = 0 ∨ n < 0) := by
  unfold initial_points npChoiceFails
  rcases h : ((X.length == 0) || decide (n < 0)) with hf | ht
  · simp only [h, Bool.false_eq_true, if_false]
    simp only [Bool.or_eq_false_iff, beq_eq_false_iff_ne, decide_eq_false_iff_not] at h
    simp [h.1, h.2]
  · simp only [h, if_true]
    simp only [Bool.or_eq_true, beq_iff_eq, decide_eq_true_eq] at h
    simpa using h

/-- C6 counterexample: point sets of mismatched dimensionality M1 = 3 and
M2 = 1 do not raise a shape error: broadcasting silently stretches the
length-1 row and a distance is computed. -/
theorem C6_counterexample :
    pairwise_distance [[(1 : ℝ), 2, 3]] (some [[5]]) =
      some (Squeezed.scalar (Real.sqrt 29)) ∧
    pairwise_distance [[(1 : ℝ), 2, 3]] (some [[5]]) ≠ none := by
  have h : pairwise_distance [[(1 : ℝ), 2, 3]] (some [[5]]) =
      some (Squeezed.scalar (Real.sqrt 29)) := by
    have hraw : rawDistMat [[(1 : ℝ), 2, 3]] [[5]] = [[Real.sqrt 29]] := by
      simp only [rawDistMat, List.map_cons, List.map_nil, List.headD_cons]
      norm_num [entryDist, stretchRow, sqSum, List.replicate]
    simp only [pairwise_distance, Option.getD_some, hraw]
    norm_num [broadcastOk, squeezeMat_single]
  exact ⟨h, by rw [h]; exact Option.some_ne_none _⟩

/-- C6 amended: the subtraction in `pairwise_distance` raises a
shape-mismatch error (before summing or square roots) iff the two
dimensionalities differ and neither of them is 1; a dimensionality of 1 is
silently broadcast instead of failing. -/
theorem C6_amended (A B : List Pt) :
    pairwise_distance A (some B) = none ↔
      ¬((A.headD []).length = (B.headD []).length ∨
        (A.headD []).length = 1 ∨ (B.headD []).length = 1) := by
  unfold pairwise_distance broadcastOk
  rcases h : (((A.headD []).length == (B.headD []).length) ||
      ((A.headD []).length == 1) || ((B.headD []).length == 1)) with hf | ht
  · simp only [h, Option.getD_some, Bool.false_eq_true, if_false, true_iff]
    simp only [Bool.or_eq_false_iff, beq_eq_false_iff_ne] at h
    push_neg
    exact ⟨h.1.1, h.1.2, h.2⟩
  · simp only [h, Option.getD_some, if_true]
    simp only [Bool.or_eq_true, beq_iff_eq] at h
    simp only [reduceCtorEq, false_iff, not_not]
    tauto

/-- C9: when both inputs contain a single point, the `squeeze()` collapses
the result of `pairwise_distance` to a 0-dimensional scalar value instead of
a 1 x 1 matrix. -/
theorem C9_single_pair_scalar (a b : Pt) (h : a.length = b.length) :
    pairwise_distance [a] (some [b]) = some (Squeezed.scalar (Real.sqrt (sqSum a b))) := by
  have hraw : rawDistMat [a] [b] = [[Real.sqrt (sqSum a b)]] := by
    simp only [rawDistMat, List.map_cons, List.map_nil, List.headD_cons]
    rw [h, max_self]
    simp [entryDist, stretchRow, h]
  have hok : broadcastOk [a] [b] = true := by
    simp [broadcastOk, h]
  simp only [pairwise_distance, Option.getD_some, hok, if_true, hraw, squeezeMat_single]

/-- C9 witness: a concrete single-point pair, with the squared distance
evaluated. -/
theorem C9_witness :
    ([(1 : ℝ), 2] : Pt).length = ([(3 : ℝ), 4] : Pt).length ∧
    pairwise_distance [[(1 : ℝ), 2]] (some [[3, 4]]) =
      some (Squeezed.scalar (Real.sqrt (sqSum [1, 2] [3, 4]))) ∧
    sqSum [(1 : ℝ), 2] [3, 4] = 8 := by
  refine ⟨rfl, C9_single_pair_scalar [1, 2] [3, 4] rfl, ?_⟩
  norm_num [sqSum]

/-- C7: Forgy initialization only ever selects existing input points (no new
point is synthesized), and since the draw is with replacement some draws
produce two identical initial centroids. -/
theorem C7_forgy :
    (∀ (X : List Pt) (n : ℤ) (draw : List ℕ) (cs : List Pt),
      initial_points X n draw = some cs → (∀ i ∈ draw, i < X.length) →
      ∀ c ∈ cs, c ∈ X) ∧
    (∃ (X : List Pt) (draw : List ℕ) (cs : List Pt),
      initial_points X 2 draw = some cs ∧ 2 ≤ X.length ∧
      cs.getD 0 [] = cs.getD 1 []) := by
  constructor
  · intro X n draw cs hcs hdraw c hc
    unfold initial_points at hcs
    rcases hnp : npChoiceFails X.length n with hf | ht
    · rw [hnp] at hcs
      simp only [Bool.false_eq_true, if_false, Option.some_inj] at hcs
      subst hcs
      rcases List.mem_map.mp hc with ⟨i, hi, rfl⟩
      rw [List.getD_eq_getElem X [] (hdraw i hi)]
      exact List.getElem_mem _
    · rw [hnp] at hcs
      simp at hcs
  · refine ⟨[[0], [1]], [0, 0], [[0], [0]], ?_, by norm_num, rfl⟩
    simp [initial_points, npChoiceFails]

/-- C7 witness: a concrete degenerate draw [0, 0] on a 2-point set; both
resulting centroids are the same input point, and all centroids are members
of the input set. -/
theorem C7_witness :
    initial_points [[(0 : ℝ)], [1]] 2 [0, 0] = some [[(0 : ℝ)], [0]] ∧
    (∀ c ∈ ([[(0 : ℝ)], [0]] : List Pt), c ∈ ([[(0 : ℝ)], [1]] : List Pt)) := by
  have h : initial_points [[(0 : ℝ)], [1]] 2 [0, 0] = some [[(0 : ℝ)], [0]] := by
    simp [initial_points, npChoiceFails]
  exact ⟨h, C7_forgy.1 _ _ _ _ h (by simp)⟩

/-- C8: the self-distance result `pairwise_distance(A)` (for at least two
points, where no squeezing happens) is the matrix of pairwise distances, and
that matrix is symmetric with zero diagonal. -/
theorem C8_self_symmetric (A : List Pt) (h2 : 2 ≤ A.length) :
    pairwise_distance A none = some (Squeezed.mat (rawDistMat A A)) ∧
    (∀ i j, ((rawDistMat A A).getD i []).getD j 0 =
      ((rawDistMat A A).getD j []).getD i 0) ∧
    (∀ i, ((rawDistMat A A).getD i []).getD i 0 = 0) := by
  refine ⟨?_, ?_, ?_⟩
  · have hok : broadcastOk A A = true := by simp [broadcastOk]
    have hne : rawDistMat A A ≠ [] := by
      intro h
      have := rawDistMat_length A A
      rw [h] at this
      simp at this
      omega
    obtain ⟨r, hrmem⟩ := List.exists_mem_of_ne_nil _ hne
    have hsq : squeezeMat (rawDistMat A A) = Squeezed.mat (rawDistMat A A) := by
      refine squeezeMat_mat_of _ (by rw [rawDistMat_length]; exact h2) r hrmem ?_
      rw [rawDistMat_rows_len A A r hrmem]
      omega
    simp only [pairwise_distance, Option.getD_none, hok, if_true, hsq]
  · intro i j
    rcases lt_or_le i A.length with hi | hi
    · rcases lt_or_le j A.length with hj | hj
      · rw [rawDistMat_getD_in A A i j hi hj, rawDistMat_getD_in A A j i hj hi]
        unfold entryDist
        rw [sqSum_comm]
      · rw [rawDistMat_getD_col_out A A i j hj, rawDistMat_getD_row_out A A j hj]
        simp
    · rw [rawDistMat_getD_row_out A A i hi]
      rcases lt_or_le j A.length with hj | hj
      · rw [rawDistMat_getD_col_out A A j i hi]
        simp
      · rw [rawDistMat_getD_row_out A A j hj]
        simp
  · intro i
    rcases lt_or_le i A.length with hi | hi
    · rw [rawDistMat_getD_in A A i i hi hi]
      unfold entryDist
      rw [sqSum_self, Real.sqrt_zero]
    · rw [rawDistMat_getD_row_out A A i hi]
      simp

/-- C8 witness: the symmetric zero-diagonal property at the concrete 2-point
set [[0], [3]]. -/
theorem C8_witness :
    2 ≤ ([[(0 : ℝ)], [3]] : List Pt).length ∧
    (pairwise_distance [[(0 : ℝ)], [3]] none =
        some (Squeezed.mat (rawDistMat [[(0 : ℝ)], [3]] [[(0 : ℝ)], [3]])) ∧
      (∀ i j, ((rawDistMat [[(0 : ℝ)], [3]] [[(0 : ℝ)], [3]]).getD i []).getD j 0 =
        ((rawDistMat [[(0 : ℝ)], [3]] [[(0 : ℝ)], [3]]).getD j []).getD i 0) ∧
      (∀ i, ((rawDistMat [[(0 : ℝ)], [3]] [[(0 : ℝ)], [3]]).getD i []).getD i 0 = 0)) :=
  ⟨by norm_num, C8_self_symmetric _ (by norm_num)⟩

/-- C1 counterexample: for the single-point pair N1 = N2 = 1 the claim's
universally promised N1 x N2 matrix is not produced: the result is a
0-dimensional scalar, a different constructor than any matrix. -/
theorem C1_counterexample :
    pairwise_distance [[(0 : ℝ)]] (some [[0]]) = some (Squeezed.scalar 0) ∧
    some (Squeezed.scalar 0) ≠ some (Squeezed.mat [[(0 : ℝ)]]) := by
  constructor
  · have hraw : rawDistMat [[(0 : ℝ)]] [[0]] = [[0]] := by
      simp [rawDistMat, entryDist, stretchRow, sqSum]
    simp only [pairwise_distance, Option.getD_some, hraw]
    norm_num [broadcastOk, squeezeMat_single]
  · simp

/-- C1 amended: whenever both point sets have at least two points (so the
squeeze leaves the two dimensions alone) and a common dimensionality M, the
result is the N1 x N2 matrix whose (i, j) entry is the Euclidean distance
sqrt(sum over d of (A[i][d] - B[j][d])^2); when N1 or N2 is 1 the size-1
dimensions are squeezed away instead. -/
theorem C1_matrix_of_distances (A B : List Pt) (M : ℕ)
    (hA : ∀ r ∈ A, r.length = M) (hB : ∀ r ∈ B, r.length = M)
    (h1 : 2 ≤ A.length) (h2 : 2 ≤ B.length) :
    pairwise_distance A (some B) = some (Squeezed.mat (rawDistMat A B)) ∧
    (rawDistMat A B).length = A.length ∧
    (∀ r ∈ rawDistMat A B, r.length = B.length) ∧
    ∀ i j, i < A.length → j < B.length →
      ((rawDistMat A B).getD i []).getD j 0 =
        specDistEntry (A.getD i []) (B.getD j []) M := by
  have hAne : A ≠ [] := by intro h; rw [h] at h1; simp at h1
  have hBne : B ≠ [] := by intro h; rw [h] at h2; simp at h2
  have hAh : (A.headD []).length = M := headD_len_of_rect A M hA hAne
  have hBh : (B.headD []).length = M := headD_len_of_rect B M hB hBne
  refine ⟨?_, rawDistMat_length A B, rawDistMat_rows_len A B, ?_⟩
  · have hok : broadcastOk A B = true := by
      have h : (A.headD []).length = (B.headD []).length := by rw [hAh, hBh]
      unfold broadcastOk
      rw [h]
      simp
    have hne : rawDistMat A B ≠ [] := by
      intro h
      have := rawDistMat_length A B
      rw [h] at this
      simp at this
      omega
    obtain ⟨r, hrmem⟩ := List.exists_mem_of_ne_nil _ hne
    have hsq : squeezeMat (rawDistMat A B) = Squeezed.mat (rawDistMat A B) := by
      refine squeezeMat_mat_of _ (by rw [rawDistMat_length]; exact h1) r hrmem ?_
      rw [rawDistMat_rows_len A B r hrmem]
      omega
    simp only [pairwise_distance, Option.getD_some, hok, if_true, hsq]
  · intro i j hi hj
    rw [rawDistMat_getD_in A B i j hi hj, hAh, hBh, max_self]
    refine entryDist_eq_spec _ _ M ?_ ?_
    · rw [List.getD_eq_getElem A [] hi]
      exact hA _ (List.getElem_mem _)
    · rw [List.getD_eq_getElem B [] hj]
      exact hB _ (List.getElem_mem _)

/-- C1 witness: the spec's concrete scenario; all four entries are computed
exactly, with D[0][0] = D[1][1] = sqrt(300). -/
theorem C1_witness :
    (∀ r ∈ Aex, r.length = 3) ∧ (∀ r ∈ Bex, r.length = 3) ∧
    2 ≤ Aex.length ∧ 2 ≤ Bex.length ∧
    pairwise_distance Aex (some Bex) = some (Squeezed.mat (rawDistMat Aex Bex)) ∧
    rawDistMat Aex Bex =
      [[Real.sqrt 300, Real.sqrt 507], [Real.sqrt 147, Real.sqrt 300]] := by
  have hA : ∀ r ∈ Aex, r.length = 3 := by
    intro r hr
    simp only [Aex, List.mem_cons, List.not_mem_nil, or_false] at hr
    rcases hr with rfl | rfl <;> rfl
  have hB : ∀ r ∈ Bex, r.length = 3 := by
    intro r hr
    simp only [Bex, List.mem_cons, List.not_mem_nil, or_false] at hr
    rcases hr with rfl | rfl <;> rfl
  refine ⟨hA, hB, by norm_num [Aex], by norm_num [Bex],
    (C1_matrix_of_distances Aex Bex 3 hA hB (by norm_num [Aex]) (by norm_num [Bex])).1, ?_⟩
  simp only [Aex, Bex, rawDistMat, List.map_cons, List.map_nil, List.headD_cons]
  norm_num [entryDist, stretchRow, sqSum]

lemma squeezeMat_eq_mat (L D : List (List ℝ)) (h : squeezeMat L = Squeezed.mat D) :
    L = D := by
  unfold squeezeMat at h
  split at h
  · exact absurd h (by simp)
  · exact absurd h (by simp)
  · split at h
    · exact absurd h (by simp)
    · injection h

lemma assignStep_some_inv (X cents : List Pt) (cl : List ℕ)
    (h : assignStep X cents = some cl) :
    broadcastOk X cents = true ∧
    (rawDistMat X cents).all (fun r => !r.isEmpty) = true ∧
    cl = (rawDistMat X cents).map argminIdx := by
  unfold assignStep at h
  split at h
  · rename_i D heq
    split at h
    · rename_i hall
      simp only [Option.some_inj] at h
      have hDok : rawDistMat X cents = D ∧ broadcastOk X cents = true := by
        unfold pairwise_distance at heq
        simp only [Option.getD_some] at heq
        by_cases hok : broadcastOk X cents = true
        · rw [if_pos hok, Option.some_inj] at heq
          exact ⟨squeezeMat_eq_mat _ _ heq, hok⟩
        · rw [if_neg hok] at heq
          exact absurd heq (by simp)
      obtain ⟨hD, hok⟩ := hDok
      subst hD
      exact ⟨hok, hall, h.symm⟩
    · exact absurd h (by simp)
  · exact absurd h (by simp)

lemma argminAux_cases (xs : List ℝ) : ∀ (i bi : ℕ) (bv : ℝ),
    argminAux i bi bv xs = bi ∨
    (i ≤ argminAux i bi bv xs ∧ argminAux i bi bv xs < i + xs.length) := by
  induction xs with
  | nil => intro i bi bv; left; rfl
  | cons x xs ih =>
    intro i bi bv
    unfold argminAux
    by_cases hx : x < bv
    · rw [if_pos hx]
      rcases ih (i + 1) i x with h | ⟨h1, h2⟩
      · right
        rw [h]
        simp only [List.length_cons]
        omega
      · right
        simp only [List.length_cons]
        omega
    · rw [if_neg hx]
      rcases ih (i + 1) bi bv with h | ⟨h1, h2⟩
      · left; exact h
      · right
        simp only [List.length_cons]
        omega

lemma argminIdx_lt (r : List ℝ) (hr : r ≠ []) : argminIdx r < r.length := by
  rcases r with _ | ⟨x, xs⟩
  · exact absurd rfl hr
  · show argminAux 1 0 x xs < (x :: xs).length
    rcases argminAux_cases xs 1 0 x with h | ⟨h1, h2⟩
    · rw [h]; simp
    · simp only [List.length_cons]
      omega

lemma assignStep_shapes (X cents : List Pt) (cl : List ℕ)
    (h : assignStep X cents = some cl) :
    cl.length = X.length ∧ ∀ c ∈ cl, c < cents.length := by
  obtain ⟨_, hall, rfl⟩ := assignStep_some_inv X cents cl h
  constructor
  · rw [List.length_map, rawDistMat_length]
  · intro c hc
    rcases List.mem_map.mp hc with ⟨r, hrmem, rfl⟩
    rw [← rawDistMat_rows_len X cents r hrmem]
    apply argminIdx_lt
    have := List.all_eq_true.mp hall r hrmem
    simpa using this

lemma updateStep_some_inv (X : List Pt) (cl : List ℕ) (K : ℕ) (c2 : List Pt)
    (h : updateStep X cl K = some c2) :
    c2.length = K ∧ (∀ p ∈ c2, p.length = (X.headD []).length) ∧
    (∀ k, k < K → selectCluster X cl k ≠ []) := by
  simp only [updateStep] at h
  split at h
  · exact absurd h (by simp)
  · rename_i hany
    simp only [Option.some_inj] at h
    refine ⟨?_, ?_, ?_⟩
    · rw [← h]; simp
    · intro p hp
      rw [← h] at hp
      rcases List.mem_map.mp hp with ⟨g, _, rfl⟩
      simp [centroidOf]
    · intro k hk hcon
      apply hany
      simp only [List.any_eq_true]
      exact ⟨selectCluster X cl k, List.mem_map.mpr ⟨k, by simp [hk], rfl⟩, by simp [hcon]⟩

lemma kmeansIter_some_inv (X : List Pt) (K : ℕ) (cents : List Pt) (cl : List ℕ)
    (c2 : List Pt) (h : kmeansIter X K cents = some (cl, c2)) :
    assignStep X cents = some cl ∧ updateStep X cl K = some c2 := by
  unfold kmeansIter at h
  split at h
  · exact absurd h (by simp)
  · rename_i cl1 heq
    split at h
    · exact absurd h (by simp)
    · rename_i c21 hequ
      simp only [Option.some_inj, Prod.mk.injEq] at h
      obtain ⟨rfl, rfl⟩ := h
      exact ⟨heq, hequ⟩

lemma assignStep_nil (cents : List Pt) : assignStep [] cents = none := by
  unfold assignStep pairwise_distance
  simp only [Option.getD_some]
  by_cases hok : broadcastOk [] cents = true
  · rw [if_pos hok]
    rfl
  · rw [if_neg hok]

lemma centroidIter_succ (X : List Pt) (K n : ℕ) (c0 : List Pt) (cl1 : List ℕ)
    (c2 : List Pt) (h : kmeansIter X K c0 = some (cl1, c2)) :
    centroidIter X K (n + 1) c0 = centroidIter X K n c2 := by
  have hstep : centroidIter X K (n + 1) c0 =
      (match kmeansIter X K c0 with
      | none => none
      | some (_, d) => centroidIter X K n d) := rfl
  rw [hstep, h]

lemma kmeansLoop_shapes (X : List Pt) (K : ℕ) (s : ℝ) :
    ∀ (fuel : ℕ) (c0 : List Pt) (cl : List ℕ) (cfin : List Pt),
      c0.length = K → kmeansLoop fuel X K s c0 = some (cl, cfin) →
      X ≠ [] ∧ cl.length = X.length ∧ (∀ c ∈ cl, c < K) ∧ cfin.length = K ∧
      (∀ p ∈ cfin, p.length = (X.headD []).length) := by
  intro fuel
  induction fuel with
  | zero => intro c0 cl cfin _ h; simp [kmeansLoop] at h
  | succ n ih =>
    intro c0 cl cfin hc0 h
    unfold kmeansLoop at h
    split at h
    · exact absurd h (by simp)
    · rename_i cl1 c2 heq
      obtain ⟨ha, hu⟩ := kmeansIter_some_inv _ _ _ _ _ heq
      obtain ⟨hlen2, hrows2, _⟩ := updateStep_some_inv _ _ _ _ hu
      have hXne : X ≠ [] := by
        intro hX
        rw [hX, assignStep_nil] at ha
        exact absurd ha (by simp)
      split at h
      · simp only [Option.some_inj, Prod.mk.injEq] at h
        obtain ⟨rfl, rfl⟩ := h
        obtain ⟨hl, hlt⟩ := assignStep_shapes _ _ _ ha
        refine ⟨hXne, hl, ?_, hlen2, hrows2⟩
        intro c hc
        rw [← hc0]
        exact hlt c hc
      · exact ih c2 cl cfin hlen2 h

lemma kmeansLoop_last_iter (X : List Pt) (K : ℕ) (s : ℝ) :
    ∀ (fuel : ℕ) (c0 : List Pt) (cl : List ℕ) (cfin : List Pt),
      kmeansLoop fuel X K s c0 = some (cl, cfin) →
      ∃ m, m < fuel ∧ ∃ cm, centroidIter X K m c0 = some cm ∧
        kmeansIter X K cm = some (cl, cfin) ∧ shiftVal cm cfin < s ∧
        ∀ i ci ci2, i < m → centroidIter X K i c0 = some ci →
          centroidIter X K (i + 1) c0 = some ci2 → s ≤ shiftVal ci ci2 := by
  intro fuel
  induction fuel with
  | zero => intro c0 cl cfin h; simp [kmeansLoop] at h
  | succ n ih =>
    intro c0 cl cfin h
    unfold kmeansLoop at h
    split at h
    · exact absurd h (by simp)
    · rename_i cl1 c2 heq
      by_cases hs : shiftVal c0 c2 < s
      · rw [if_pos hs] at h
        simp only [Option.some_inj, Prod.mk.injEq] at h
        obtain ⟨rfl, rfl⟩ := h
        refine ⟨0, by omega, c0, rfl, heq, hs, ?_⟩
        intro i ci ci2 hi
        omega
      · rw [if_neg hs] at h
        obtain ⟨m, hm, cm, hcm, hiter, hshift, hearlier⟩ := ih c2 cl cfin h
        refine ⟨m + 1, by omega, cm, ?_, hiter, hshift, ?_⟩
        · rw [centroidIter_succ X K m c0 cl1 c2 heq]
          exact hcm
        · intro i ci ci2 hi hci hci2
          cases i with
          | zero =>
            have hc0eq : ci = c0 := by
              simp only [centroidIter, Option.some_inj] at hci
              exact hci.symm
            have hc2eq : ci2 = c2 := by
              rw [centroidIter_succ X K 0 c0 cl1 c2 heq] at hci2
              simp only [centroidIter, Option.some_inj] at hci2
              exact hci2.symm
            rw [hc0eq, hc2eq]
            exact le_of_not_lt hs
          | succ j =>
            refine hearlier j ci ci2 (by omega) ?_ ?_
            · rw [← centroidIter_succ X K j c0 cl1 c2 heq]
              exact hci
            · rw [← centroidIter_succ X K (j + 1) c0 cl1 c2 heq]
              exact hci2

lemma shiftVal_eq_spec (post : List Pt) : ∀ (pre : List Pt) (K M : ℕ),
    pre.length = K → post.length = K →
    (∀ p ∈ pre, p.length = M) → (∀ p ∈ post, p.length = M) →
    shiftVal pre post = specShift pre post K M := by
  induction post with
  | nil =>
    intro pre K M hpre hpost _ _
    rw [← hpost]
    simp [shiftVal, specShift]
  | cons q qs ih =>
    intro pre K M hpre hpost hpr hpo
    cases pre with
    | nil => rw [← hpre] at hpost; simp at hpost
    | cons p ps =>
      cases K with
      | zero => simp at hpost
      | succ n =>
        have hps : ps.length = n := by simpa using hpre
        have hqs : qs.length = n := by simpa using hpost
        have hq : q.length = M := hpo q (List.mem_cons_self q qs)
        have hp : p.length = M := hpr p (List.mem_cons_self p ps)
        have hstep : shiftVal (p :: ps) (q :: qs) =
            Real.sqrt (sqSum q p) + shiftVal ps qs := by
          simp [shiftVal]
        rw [hstep]
        unfold specShift
        rw [Finset.sum_range_succ']
        simp only [List.getD_cons_succ, List.getD_cons_zero]
        rw [← sqSum_eq_finset q p M hq hp]
        rw [ih ps n M hps hqs (fun r hr => hpr r (List.mem_cons_of_mem p hr))
          (fun r hr => hpo r (List.mem_cons_of_mem q hr))]
        unfold specShift
        ring

/-- C2: a completed `kmeans` run stops exactly at the first iteration whose
shift (the sum over centroids of the Euclidean norm of the centroid movement,
as `specShift` states it) is strictly below `sqrt(tol)`: every earlier
iteration had shift at least `sqrt(tol)` and went back to Assign; the default
tolerance is 1e-5 (`kmeansD`). -/
theorem C2_stop_condition (X : List Pt) (K : ℤ) (draw : List ℕ) (tol : ℝ)
    (fuel : ℕ) (cl : List ℕ) (cfin : List Pt)
    (h : kmeans X K draw tol fuel = some (cl, cfin)) :
    kmeansD X K draw fuel = kmeans X K draw (1 / 100000) fuel ∧
    (∀ (pre post : List Pt) (M : ℕ), pre.length = K.toNat → post.length = K.toNat →
      (∀ p ∈ pre, p.length = M) → (∀ p ∈ post, p.length = M) →
      shiftVal pre post = specShift pre post K.toNat M) ∧
    ∃ c0, initial_points X K draw = some c0 ∧
      ∃ m, m < fuel ∧ ∃ cm, centroidIter X K.toNat m c0 = some cm ∧
        kmeansIter X K.toNat cm = some (cl, cfin) ∧
        shiftVal cm cfin < Real.sqrt tol ∧
        ∀ i ci ci2, i < m → centroidIter X K.toNat i c0 = some ci →
          centroidIter X K.toNat (i + 1) c0 = some ci2 →
          Real.sqrt tol ≤ shiftVal ci ci2 := by
  refine ⟨rfl, ?_, ?_⟩
  · intro pre post M h1 h2 h3 h4
    exact shiftVal_eq_spec post pre K.toNat M h1 h2 h3 h4
  · unfold kmeans at h
    split at h
    · exact absurd h (by simp)
    · rename_i c0 heq
      exact ⟨c0, heq, kmeansLoop_last_iter X K.toNat (Real.sqrt tol) fuel c0 cl cfin h⟩

/-- C3: a completed `kmeans` run returns one cluster index per input point,
each index in [0, K), and K centroids, each of the input dimensionality M. -/
theorem C3_kmeans_shapes (X : List Pt) (K : ℤ) (draw : List ℕ) (tol : ℝ)
    (fuel : ℕ) (cl : List ℕ) (cfin : List Pt) (M : ℕ)
    (hX : ∀ p ∈ X, p.length = M)
    (hdraw : draw.length = K.toNat)
    (h : kmeans X K draw tol fuel = some (cl, cfin)) :
    cl.length = X.length ∧ (∀ c ∈ cl, c < K.toNat) ∧
    cfin.length = K.toNat ∧ (∀ p ∈ cfin, p.length = M) := by
  unfold kmeans at h
  split at h
  · exact absurd h (by simp)
  · rename_i cents heq
    have hlen : cents.length = K.toNat := by
      unfold initial_points at heq
      split at heq
      · exact absurd heq (by simp)
      · simp only [Option.some_inj] at heq
        rw [← heq]
        simp [hdraw]
    obtain ⟨hXne, h1, h2, h3, h4⟩ :=
      kmeansLoop_shapes X K.toNat (Real.sqrt tol) fuel cents cl cfin hlen h
    refine ⟨h1, h2, h3, ?_⟩
    intro p hp
    rw [h4 p hp]
    exact headD_len_of_rect X M hX hXne

/-- C4 amended: for a completed run, the returned centroids are exactly the
Update step (per-cluster means) of the returned assignment, and the returned
assignment is the Assign step of the centroids from before the final Update;
re-running Assign with the returned (post-update) centroids is not what the
code returns. -/
theorem C4_update_idempotent (X : List Pt) (K : ℤ) (draw : List ℕ) (tol : ℝ)
    (fuel : ℕ) (cl : List ℕ) (cfin : List Pt)
    (h : kmeans X K draw tol fuel = some (cl, cfin)) :
    updateStep X cl K.toNat = some cfin ∧
    ∃ cpre, assignStep X cpre = some cl := by
  unfold kmeans at h
  split at h
  · exact absurd h (by simp)
  · rename_i c0 heq
    obtain ⟨m, _, cm, _, hiter, _, _⟩ :=
      kmeansLoop_last_iter X K.toNat (Real.sqrt tol) fuel c0 cl cfin h
    obtain ⟨ha, hu⟩ := kmeansIter_some_inv _ _ _ _ _ hiter
    exact ⟨hu, cm, ha⟩

lemma pairwise_some_of_ok (A B : List Pt) (hok : broadcastOk A B = true) :
    pairwise_distance A (some B) = some (squeezeMat (rawDistMat A B)) := by
  simp only [pairwise_distance, Option.getD_some]
  rw [if_pos hok]

lemma assignStep_eval (X cents : List Pt) (D : List (List ℝ))
    (hok : broadcastOk X cents = true)
    (hraw : rawDistMat X cents = D)
    (hmat : squeezeMat D = Squeezed.mat D)
    (hne : (D.all fun r => !r.isEmpty) = true) :
    assignStep X cents = some (D.map argminIdx) := by
  unfold assignStep
  rw [pairwise_some_of_ok X cents hok, hraw, hmat]
  show (if (D.all fun r => !r.isEmpty) = true then some (D.map argminIdx) else none) =
    some (D.map argminIdx)
  rw [if_pos hne]

lemma argmin_two (a b : ℝ) : argminIdx [a, b] = if b < a then 1 else 0 := by
  show argminAux 1 0 a [b] = if b < a then 1 else 0
  unfold argminAux
  by_cases h : b < a
  · rw [if_pos h, if_pos h]
    rfl
  · rw [if_neg h, if_neg h]
    rfl

lemma entryDist_one (a c : ℝ) : entryDist 1 [a] [c] = Real.sqrt ((a - c) ^ 2) := by
  simp [entryDist, stretchRow, sqSum]

lemma entryDist_one_eval (a c v : ℝ) (hv : 0 ≤ v) (h : (a - c) ^ 2 = v ^ 2) :
    entryDist 1 [a] [c] = v := by
  rw [entryDist_one, h, Real.sqrt_sq hv]

lemma centroidOf_one (a : ℝ) : centroidOf [[a]] 1 = [a] := by
  have hr : List.range 1 = [0] := rfl
  simp only [centroidOf, hr, List.map_cons, List.map_nil, List.getD_cons_zero,
    List.sum_cons, List.sum_nil, List.length_cons, List.length_nil]
  norm_num

lemma centroidOf_three (a b c : ℝ) :
    centroidOf [[a], [b], [c]] 1 = [(a + b + c) / 3] := by
  have hr : List.range 1 = [0] := rfl
  simp only [centroidOf, hr, List.map_cons, List.map_nil, List.getD_cons_zero,
    List.sum_cons, List.sum_nil, List.length_cons, List.length_nil]
  norm_num
  ring

lemma run2_raw : rawDistMat X2 [[0], [2]] = [[0, 2], [2, 0]] := by
  have e00 : entryDist 1 [(0 : ℝ)] [0] = 0 := entryDist_one_eval 0 0 0 le_rfl (by norm_num)
  have e01 : entryDist 1 [(0 : ℝ)] [2] = 2 :=
    entryDist_one_eval 0 2 2 (by norm_num) (by norm_num)
  have e10 : entryDist 1 [(2 : ℝ)] [0] = 2 :=
    entryDist_one_eval 2 0 2 (by norm_num) (by norm_num)
  have e11 : entryDist 1 [(2 : ℝ)] [2] = 0 := entryDist_one_eval 2 2 0 le_rfl (by norm_num)
  simp only [X2, rawDistMat, List.map_cons, List.map_nil, List.headD_cons,
    List.length_cons, List.length_nil, Nat.reduceAdd, max_self]
  rw [e00, e01, e10, e11]

lemma run2_assign : assignStep X2 [[0], [2]] = some [0, 1] := by
  have hok : broadcastOk X2 [[0], [2]] = true := by simp [broadcastOk, X2]
  have hmat : squeezeMat [[(0 : ℝ), 2], [2, 0]] = Squeezed.mat [[0, 2], [2, 0]] := by
    refine squeezeMat_mat_of _ (by norm_num) [0, 2] (by simp) (by norm_num)
  rw [assignStep_eval X2 [[0], [2]] [[0, 2], [2, 0]] hok run2_raw hmat (by simp)]
  simp only [List.map_cons, List.map_nil, argmin_two]
  norm_num

lemma run2_update : updateStep X2 [0, 1] 2 = some [[0], [2]] := by
  have hsel0 : selectCluster X2 [0, 1] 0 = [[0]] := by simp [selectCluster, X2]
  have hsel1 : selectCluster X2 [0, 1] 1 = [[2]] := by simp [selectCluster, X2]
  have hrange : List.range 2 = [0, 1] := rfl
  simp only [updateStep, hrange, List.map_cons, List.map_nil, hsel0, hsel1]
  rw [if_neg (by simp)]
  simp only [X2, List.headD_cons, List.length_cons, List.length_nil, Nat.reduceAdd,
    centroidOf_one]

lemma run2_iter : kmeansIter X2 2 [[0], [2]] = some ([0, 1], [[0], [2]]) := by
  simp only [kmeansIter, run2_assign, run2_update]

lemma run2_loop : kmeansLoop 1 X2 2 (Real.sqrt (1 / 100000)) [[0], [2]] =
    some ([0, 1], [[0], [2]]) := by
  have hstep : kmeansLoop 1 X2 2 (Real.sqrt (1 / 100000)) [[0], [2]] =
      (match kmeansIter X2 2 [[0], [2]] with
      | none => none
      | some (cl, c2) =>
        if shiftVal [[0], [2]] c2 < Real.sqrt (1 / 100000) then some (cl, c2)
        else kmeansLoop 0 X2 2 (Real.sqrt (1 / 100000)) c2) := rfl
  rw [hstep, run2_iter]
  show (if shiftVal [[0], [2]] [[0], [2]] < Real.sqrt (1 / 100000) then
      some (([0, 1] : List ℕ), ([[0], [2]] : List Pt))
    else kmeansLoop 0 X2 2 (Real.sqrt (1 / 100000)) [[0], [2]]) =
      some ([0, 1], [[0], [2]])
  have hshift : shiftVal [[0], [2]] [[(0 : ℝ)], [2]] = 0 := by
    simp [shiftVal, sqSum_self]
  rw [hshift, if_pos (Real.sqrt_pos.mpr (by norm_num))]

lemma run2_init : initial_points X2 2 [0, 1] = some [[0], [2]] := by
  simp [initial_points, npChoiceFails, X2]

lemma run2_kmeans : kmeans X2 2 [0, 1] (1 / 100000) 1 = some ([0, 1], [[0], [2]]) := by
  unfold kmeans
  rw [run2_init]
  exact run2_loop

/-- C2 witness: a concrete converging run (two points, two clusters seeded at
the points themselves) on which the loop stops at the first iteration with
shift 0 < sqrt(1e-5). -/
theorem C2_witness :
    kmeans X2 2 [0, 1] (1 / 100000) 1 = some ([0, 1], [[0], [2]]) ∧
    (kmeansD X2 2 [0, 1] 1 = kmeans X2 2 [0, 1] (1 / 100000) 1 ∧
    (∀ (pre post : List Pt) (M : ℕ), pre.length = (2 : ℤ).toNat →
      post.length = (2 : ℤ).toNat →
      (∀ p ∈ pre, p.length = M) → (∀ p ∈ post, p.length = M) →
      shiftVal pre post = specShift pre post (2 : ℤ).toNat M) ∧
    ∃ c0, initial_points X2 2 [0, 1] = some c0 ∧
      ∃ m, m < 1 ∧ ∃ cm, centroidIter X2 (2 : ℤ).toNat m c0 = some cm ∧
        kmeansIter X2 (2 : ℤ).toNat cm = some ([0, 1], [[0], [2]]) ∧
        shiftVal cm [[0], [2]] < Real.sqrt (1 / 100000) ∧
        ∀ i ci ci2, i < m → centroidIter X2 (2 : ℤ).toNat i c0 = some ci →
          centroidIter X2 (2 : ℤ).toNat (i + 1) c0 = some ci2 →
          Real.sqrt (1 / 100000) ≤ shiftVal ci ci2) :=
  ⟨run2_kmeans,
   C2_stop_condition X2 2 [0, 1] (1 / 100000) 1 [0, 1] [[0], [2]] run2_kmeans⟩

/-- C3 witness: shapes of the concrete converging run. -/
theorem C3_witness :
    kmeans X2 2 [0, 1] (1 / 100000) 1 = some ([0, 1], [[0], [2]]) ∧
    ([0, 1] : List ℕ).length = X2.length ∧
    (∀ c ∈ ([0, 1] : List ℕ), c < (2 : ℤ).toNat) ∧
    ([[(0 : ℝ)], [2]] : List Pt).length = (2 : ℤ).toNat ∧
    (∀ p ∈ ([[(0 : ℝ)], [2]] : List Pt), p.length = 1) := by
  have hX : ∀ p ∈ X2, p.length = 1 := by
    intro p hp
    simp only [X2, List.mem_cons, List.not_mem_nil, or_false] at hp
    rcases hp with rfl | rfl <;> rfl
  have h := C3_kmeans_shapes X2 2 [0, 1] (1 / 100000) 1 [0, 1] [[0], [2]] 1
    hX rfl run2_kmeans
  exact ⟨run2_kmeans, h.1, h.2.1, h.2.2.1, h.2.2.2⟩

/-- C4 witness (for the amended claim): on the concrete converging run the
returned centroids are the Update of the returned assignment. -/
theorem C4_witness :
    kmeans X2 2 [0, 1] (1 / 100000) 1 = some ([0, 1], [[0], [2]]) ∧
    updateStep X2 [0, 1] (2 : ℤ).toNat = some [[0], [2]] ∧
    ∃ cpre, assignStep X2 cpre = some [0, 1] := by
  have h := C4_update_idempotent X2 2 [0, 1] (1 / 100000) 1 [0, 1] [[0], [2]] run2_kmeans
  exact ⟨run2_kmeans, h.1, h.2⟩

lemma run4_raw1 : rawDistMat X4 [[0], [2]] =
    [[0, 2], [1001 / 1000, 999 / 1000], [2, 0], [376 / 125, 126 / 125]] := by
  have e00 : entryDist 1 [(0 : ℝ)] [0] = 0 := entryDist_one_eval 0 0 0 le_rfl (by norm_num)
  have e01 : entryDist 1 [(0 : ℝ)] [2] = 2 :=
    entryDist_one_eval 0 2 2 (by norm_num) (by norm_num)
  have e10 : entryDist 1 [(1001 / 1000 : ℝ)] [0] = 1001 / 1000 :=
    entryDist_one_eval _ 0 _ (by norm_num) (by norm_num)
  have e11 : entryDist 1 [(1001 / 1000 : ℝ)] [2] = 999 / 1000 :=
    entryDist_one_eval _ 2 _ (by norm_num) (by norm_num)
  have e20 : entryDist 1 [(2 : ℝ)] [0] = 2 :=
    entryDist_one_eval 2 0 2 (by norm_num) (by norm_num)
  have e21 : entryDist 1 [(2 : ℝ)] [2] = 0 := entryDist_one_eval 2 2 0 le_rfl (by norm_num)
  have e30 : entryDist 1 [(376 / 125 : ℝ)] [0] = 376 / 125 :=
    entryDist_one_eval _ 0 _ (by norm_num) (by norm_num)
  have e31 : entryDist 1 [(376 / 125 : ℝ)] [2] = 126 / 125 :=
    entryDist_one_eval _ 2 _ (by norm_num) (by norm_num)
  simp only [X4, rawDistMat, List.map_cons, List.map_nil, List.headD_cons,
    List.length_cons, List.length_nil, Nat.reduceAdd, max_self]
  rw [e00, e01, e10, e11, e20, e21, e30, e31]

lemma run4_assign1 : assignStep X4 [[0], [2]] = some [0, 1, 1, 1] := by
  have hok : broadcastOk X4 [[0], [2]] = true := by simp [broadcastOk, X4]
  have hmat : squeezeMat [[(0 : ℝ), 2], [1001 / 1000, 999 / 1000], [2, 0],
      [376 / 125, 126 / 125]] = Squeezed.mat [[0, 2], [1001 / 1000, 999 / 1000],
      [2, 0], [376 / 125, 126 / 125]] := by
    refine squeezeMat_mat_of _ (by norm_num) [0, 2] (by simp) (by norm_num)
  rw [assignStep_eval X4 [[0], [2]] _ hok run4_raw1 hmat (by simp)]
  simp only [List.map_cons, List.map_nil, argmin_two]
  norm_num

lemma run4_update1 : updateStep X4 [0, 1, 1, 1] 2 = some [[0], [2003 / 1000]] := by
  have hsel0 : selectCluster X4 [0, 1, 1, 1] 0 = [[0]] := by simp [selectCluster, X4]
  have hsel1 : selectCluster X4 [0, 1, 1, 1] 1 = [[1001 / 1000], [2], [376 / 125]] := by
    simp [selectCluster, X4]
  have hrange : List.range 2 = [0, 1] := rfl
  simp only [updateStep, hrange, List.map_cons, List.map_nil, hsel0, hsel1]
  rw [if_neg (by simp)]
  simp only [X4, List.headD_cons, List.length_cons, List.length_nil, Nat.reduceAdd,
    centroidOf_one, centroidOf_three]
  norm_num

lemma run4_iter : kmeansIter X4 2 [[0], [2]] = some ([0, 1, 1, 1], [[0], [2003 / 1000]]) := by
  simp only [kmeansIter, run4_assign1, run4_update1]

lemma run4_shift : shiftVal [[0], [2]] [[(0 : ℝ)], [2003 / 1000]] = 3 / 1000 := by
  have h2 : sqSum [(2003 / 1000 : ℝ)] [2] = (3 / 1000) ^ 2 := by norm_num [sqSum]
  simp only [shiftVal, List.zip_cons_cons, List.zip_nil_right, List.map_cons,
    List.map_nil, List.sum_cons, List.sum_nil, sqSum_self, Real.sqrt_zero, h2,
    Real.sqrt_sq (by norm_num : (0 : ℝ) ≤ 3 / 1000)]
  norm_num

lemma run4_loop : kmeansLoop 1 X4 2 (Real.sqrt (1 / 100000)) [[0], [2]] =
    some ([0, 1, 1, 1], [[0], [2003 / 1000]]) := by
  have hstep : kmeansLoop 1 X4 2 (Real.sqrt (1 / 100000)) [[0], [2]] =
      (match kmeansIter X4 2 [[0], [2]] with
      | none => none
      | some (cl, c2) =>
        if shiftVal [[0], [2]] c2 < Real.sqrt (1 / 100000) then some (cl, c2)
        else kmeansLoop 0 X4 2 (Real.sqrt (1 / 100000)) c2) := rfl
  rw [hstep, run4_iter]
  show (if shiftVal [[0], [2]] [[(0 : ℝ)], [2003 / 1000]] < Real.sqrt (1 / 100000) then
      some (([0, 1, 1, 1] : List ℕ), ([[0], [2003 / 1000]] : List Pt))
    else kmeansLoop 0 X4 2 (Real.sqrt (1 / 100000)) [[0], [2003 / 1000]]) =
      some ([0, 1, 1, 1], [[0], [2003 / 1000]])
  rw [run4_shift,
    if_pos (Real.lt_sqrt_of_sq_lt (by norm_num : ((3 : ℝ) / 1000) ^ 2 < 1 / 100000))]

lemma run4_init : initial_points X4 2 [0, 2] = some [[0], [2]] := by
  simp [initial_points, npChoiceFails, X4]

lemma run4_kmeans : kmeans X4 2 [0, 2] (1 / 100000) 1 =
    some ([0, 1, 1, 1], [[0], [2003 / 1000]]) := by
  unfold kmeans
  rw [run4_init]
  exact run4_loop

lemma run4_raw2 : rawDistMat X4 [[0], [2003 / 1000]] =
    [[0, 2003 / 1000], [1001 / 1000, 1002 / 1000], [2, 3 / 1000],
      [376 / 125, 1005 / 1000]] := by
  have e00 : entryDist 1 [(0 : ℝ)] [0] = 0 := entryDist_one_eval 0 0 0 le_rfl (by norm_num)
  have e01 : entryDist 1 [(0 : ℝ)] [2003 / 1000] = 2003 / 1000 :=
    entryDist_one_eval 0 _ _ (by norm_num) (by norm_num)
  have e10 : entryDist 1 [(1001 / 1000 : ℝ)] [0] = 1001 / 1000 :=
    entryDist_one_eval _ 0 _ (by norm_num) (by norm_num)
  have e11 : entryDist 1 [(1001 / 1000 : ℝ)] [2003 / 1000] = 1002 / 1000 :=
    entryDist_one_eval _ _ _ (by norm_num) (by norm_num)
  have e20 : entryDist 1 [(2 : ℝ)] [0] = 2 :=
    entryDist_one_eval 2 0 2 (by norm_num) (by norm_num)
  have e21 : entryDist 1 [(2 : ℝ)] [2003 / 1000] = 3 / 1000 :=
    entryDist_one_eval _ _ _ (by norm_num) (by norm_num)
  have e30 : entryDist 1 [(376 / 125 : ℝ)] [0] = 376 / 125 :=
    entryDist_one_eval _ 0 _ (by norm_num) (by norm_num)
  have e31 : entryDist 1 [(376 / 125 : ℝ)] [2003 / 1000] = 1005 / 1000 :=
    entryDist_one_eval _ _ _ (by norm_num) (by norm_num)
  simp only [X4, rawDistMat, List.map_cons, List.map_nil, List.headD_cons,
    List.length_cons, List.length_nil, Nat.reduceAdd, max_self]
  rw [e00, e01, e10, e11, e20, e21, e30, e31]

lemma run4_assign2 : assignStep X4 [[0], [2003 / 1000]] = some [0, 0, 1, 1] := by
  have hok : broadcastOk X4 [[0], [2003 / 1000]] = true := by simp [broadcastOk, X4]
  have hmat : squeezeMat [[(0 : ℝ), 2003 / 1000], [1001 / 1000, 1002 / 1000],
      [2, 3 / 1000], [376 / 125, 1005 / 1000]] =
      Squeezed.mat [[0, 2003 / 1000], [1001 / 1000, 1002 / 1000], [2, 3 / 1000],
        [376 / 125, 1005 / 1000]] := by
    refine squeezeMat_mat_of _ (by norm_num) [0, 2003 / 1000] (by simp) (by norm_num)
  rw [assignStep_eval X4 [[0], [2003 / 1000]] _ hok run4_raw2 hmat (by simp)]
  simp only [List.map_cons, List.map_nil, argmin_two]
  norm_num

/-- C4 counterexample: on the four 1-dimensional points
[0, 1001/1000, 2, 376/125] with centroids seeded at the points 0 and 2, the
loop converges in one iteration (shift 3/1000 < sqrt(1e-5)) and returns the
assignment [0, 1, 1, 1], computed against the pre-update centroids [0, 2];
but re-running the Assign step with the returned centroids [0, 2003/1000]
gives [0, 0, 1, 1]: the point 1001/1000 flips cluster, so re-running Assign
does not reproduce the returned assignment. -/
theorem C4_counterexample :
    kmeans X4 2 [0, 2] (1 / 100000) 1 = some ([0, 1, 1, 1], [[0], [2003 / 1000]]) ∧
    assignStep X4 [[0], [2003 / 1000]] = some [0, 0, 1, 1] ∧
    ([0, 0, 1, 1] : List ℕ) ≠ [0, 1, 1, 1] :=
  ⟨run4_kmeans, run4_assign2, by decide⟩

lemma nAdd_none_left (x : NR) : nAdd none x = none := rfl

lemma nAdd_none_right (x : NR) : nAdd x none = none := by
  cases x <;> rfl

lemma nSum_none_mem (l : List NR) (h : (none : NR) ∈ l) : nSum l = none := by
  induction l with
  | nil => simp at h
  | cons x xs ih =>
    rcases List.mem_cons.mp h with hx | hx
    · show nAdd x (nSum xs) = none
      rw [← hx]
      exact nAdd_none_left _
    · show nAdd x (nSum xs) = none
      rw [ih hx]
      exact nAdd_none_right _

lemma updateStepN_length (X : List Pt) (cl : List ℕ) (K : ℕ) :
    (updateStepN X cl K).length = K := by
  simp [updateStepN]

lemma updateStepN_getD (X : List Pt) (cl : List ℕ) (K k : ℕ) (hk : k < K) :
    (updateStepN X cl K).getD k [] =
      (if (selectCluster X cl k).isEmpty then
        List.replicate (X.headD []).length (none : NR)
      else (centroidOf (selectCluster X cl k) (X.headD []).length).map some) := by
  simp only [updateStepN]
  rw [List.getD_eq_getElem _ _ (by simpa using hk), List.getElem_map, List.getElem_range]

/-- C10: if at some iteration cluster k has no assigned points, the Update
step raises no error: it writes a vector of NaN coordinates (the `none`
entries of the NaN-aware model) into centroid k, and since the resulting
shift is NaN and a NaN comparison is false, the break test `shift < sqrt_tol`
fails for every threshold, so the loop continues with those values. -/
theorem C10_empty_cluster_nan (X : List Pt) (cl : List ℕ) (K k M : ℕ)
    (cpre : List Pt) (t : ℝ)
    (hM : (X.headD []).length = M) (hM1 : 1 ≤ M) (hk : k < K)
    (hempty : selectCluster X cl k = [])
    (hlen : cpre.length = K) (hrect : ∀ p ∈ cpre, p.length = M) :
    (updateStepN X cl K).getD k [] = List.replicate M (none : NR) ∧
    ¬ breaksLoop (shiftN (cpre.map (fun p => p.map some)) (updateStepN X cl K)) t := by
  have hget : (updateStepN X cl K).getD k [] = List.replicate M (none : NR) := by
    rw [updateStepN_getD X cl K k hk, if_pos (by rw [hempty]; rfl), hM]
  refine ⟨hget, ?_⟩
  have hlen1 : (updateStepN X cl K).length = K := updateStepN_length X cl K
  have hlen2 : (cpre.map (fun p => p.map some)).length = K := by simp [hlen]
  have hkc : k < cpre.length := by rw [hlen]; exact hk
  have hshift : shiftN (cpre.map (fun p => p.map some)) (updateStepN X cl K) = none := by
    unfold shiftN
    apply nSum_none_mem
    have hkz : k < ((updateStepN X cl K).zip (cpre.map fun p => p.map some)).length := by
      rw [List.length_zip, hlen1, hlen2]
      simpa using hk
    have hk1 : k < (updateStepN X cl K).length := by rw [hlen1]; exact hk
    have hk2 : k < (cpre.map (fun p => p.map some)).length := by rw [hlen2]; exact hk
    have hpre : (cpre.map (fun p => p.map some)).getD k [] = (cpre.getD k []).map some := by
      rw [List.getD_eq_getElem _ _ hk2, List.getElem_map, List.getD_eq_getElem _ _ hkc]
    have hzipk : ((updateStepN X cl K).zip (cpre.map fun p => p.map some)).getD k ([], []) =
        ((updateStepN X cl K).getD k [], (cpre.map (fun p => p.map some)).getD k []) := by
      rw [List.getD_eq_getElem _ _ hkz, List.getElem_zip,
        List.getD_eq_getElem _ _ hk1, List.getD_eq_getElem _ _ hk2]
    have hmem : ((updateStepN X cl K).zip (cpre.map fun p => p.map some)).getD k ([], []) ∈
        (updateStepN X cl K).zip (cpre.map fun p => p.map some) := by
      rw [List.getD_eq_getElem _ _ hkz]
      exact List.getElem_mem hkz
    rw [hzipk, hget, hpre] at hmem
    refine List.mem_map.mpr ⟨(List.replicate M (none : NR), (cpre.getD k []).map some),
      hmem, ?_⟩
    obtain ⟨m, rfl⟩ : ∃ m, M = m + 1 := ⟨M - 1, by omega⟩
    have hckmem : cpre.getD k [] ∈ cpre := by
      rw [List.getD_eq_getElem _ _ hkc]
      exact List.getElem_mem hkc
    have hcklen : (cpre.getD k []).length = m + 1 := hrect _ hckmem
    rcases hckc : cpre.getD k [] with _ | ⟨c0, crest⟩
    · rw [hckc] at hcklen
      simp at hcklen
    · show nSqrt (nSum ((((List.replicate (m + 1) (none : NR))).zip
        ((c0 :: crest).map some)).map (fun q => nSq (nSub q.1 q.2)))) = none
      rw [List.replicate_succ]
      show nSqrt (nSum (((none, some c0) :: ((List.replicate m (none : NR)).zip
        (crest.map some))).map (fun q => nSq (nSub q.1 q.2)))) = none
      rw [List.map_cons]
      show nSqrt (nSum ((none : NR) :: _)) = none
      rw [nSum_none_mem _ (List.mem_cons_self _ _)]
      rfl
  rw [hshift]
  rintro ⟨v, hv, _⟩
  exact Option.noConfusion hv

/-- C10 witness: on the 2-point set with both points assigned to cluster 0,
cluster 1 is empty; the NaN-aware Update writes [NaN] into centroid 1 and the
break test fails at the default threshold. -/
theorem C10_witness :
    selectCluster X2 [0, 0] 1 = [] ∧
    ((updateStepN X2 [0, 0] 2).getD 1 [] = List.replicate 1 (none : NR) ∧
      ¬ breaksLoop (shiftN (([[0], [2]] : List Pt).map (fun p => p.map some))
        (updateStepN X2 [0, 0] 2)) (Real.sqrt (1 / 100000))) := by
  have hempty : selectCluster X2 [0, 0] 1 = [] := by simp [selectCluster, X2]
  have hrect : ∀ p ∈ ([[0], [2]] : List Pt), p.length = 1 := by
    intro p hp
    simp only [List.mem_cons, List.not_mem_nil, or_false] at hp
    rcases hp with rfl | rfl <;> rfl
  exact ⟨hempty, C10_empty_cluster_nan X2 [0, 0] 2 1 1 [[0], [2]]
    (Real.sqrt (1 / 100000)) rfl le_rfl (by norm_num) hempty rfl hrect⟩

end KM
